import Mathlib

/-!
Verification of the `warp-mds` metadata document store against its design
specification.  The core under scrutiny is `mmds/src/lib.rs`: the
`json_patch` RFC 7396 merge-patch engine, and the HTTP handler layer built
on the `data_store::Mmds` store.  `data_store.rs` itself is not part of the
sources available here, so the store (`Mmds`, `put_data`, `get_value`) and
the error rendering are modelled from the specification; everything
operating on `serde_json::Value` is embedded directly from `lib.rs`.
-/

set_option autoImplicit false

/-- Shallow embedding of `serde_json::Value`.  Objects are insertion-ordered
association lists: the specification fixes the `Map` representation as an
ordered mapping whose iteration order is insertion order (the choice of map
representation is made by a feature flag outside the available sources).
The numeric payload of `Number` is abstracted to `Int`: no operation in the
repository inspects a numeric value, only the variant tag. -/
inductive Value where
  | null : Value
  | bool : Bool → Value
  | num : Int → Value
  | str : String → Value
  | arr : List Value → Value
  | obj : List (String × Value) → Value
  deriving Repr

mutual

def decEqValue : (a b : Value) → Decidable (a = b)
  | .null, .null => isTrue rfl
  | .bool a, .bool b =>
    match decEq a b with
    | isTrue h => isTrue (h ▸ rfl)
    | isFalse h => isFalse (fun hh => h (Value.bool.inj hh))
  | .num a, .num b =>
    match decEq a b with
    | isTrue h => isTrue (h ▸ rfl)
    | isFalse h => isFalse (fun hh => h (Value.num.inj hh))
  | .str a, .str b =>
    match decEq a b with
    | isTrue h => isTrue (h ▸ rfl)
    | isFalse h => isFalse (fun hh => h (Value.str.inj hh))
  | .arr a, .arr b =>
    match decEqValueList a b with
    | isTrue h => isTrue (h ▸ rfl)
    | isFalse h => isFalse (fun hh => h (Value.arr.inj hh))
  | .obj a, .obj b =>
    match decEqEntryList a b with
    | isTrue h => isTrue (h ▸ rfl)
    | isFalse h => isFalse (fun hh => h (Value.obj.inj hh))
  | .null, .bool _ | .null, .num _ | .null, .str _ | .null, .arr _ | .null, .obj _
  | .bool _, .null | .bool _, .num _ | .bool _, .str _ | .bool _, .arr _ | .bool _, .obj _
  | .num _, .null | .num _, .bool _ | .num _, .str _ | .num _, .arr _ | .num _, .obj _
  | .str _, .null | .str _, .bool _ | .str _, .num _ | .str _, .arr _ | .str _, .obj _
  | .arr _, .null | .arr _, .bool _ | .arr _, .num _ | .arr _, .str _ | .arr _, .obj _
  | .obj _, .null | .obj _, .bool _ | .obj _, .num _ | .obj _, .str _ | .obj _, .arr _ =>
    isFalse (by intro h; cases h)

def decEqValueList : (a b : List Value) → Decidable (a = b)
  | [], [] => isTrue rfl
  | [], _ :: _ => isFalse (by intro h; cases h)
  | _ :: _, [] => isFalse (by intro h; cases h)
  | a :: as, b :: bs =>
    match decEqValue a b, decEqValueList as bs with
    | isTrue h₁, isTrue h₂ => isTrue (h₁ ▸ h₂ ▸ rfl)
    | isFalse h₁, _ => isFalse (fun hh => h₁ (List.cons.inj hh).1)
    | _, isFalse h₂ => isFalse (fun hh => h₂ (List.cons.inj hh).2)

def decEqEntryList : (a b : List (String × Value)) → Decidable (a = b)
  | [], [] => isTrue rfl
  | [], _ :: _ => isFalse (by intro h; cases h)
  | _ :: _, [] => isFalse (by intro h; cases h)
  | (k₁, v₁) :: as, (k₂, v₂) :: bs =>
    match decEq k₁ k₂, decEqValue v₁ v₂, decEqEntryList as bs with
    | isTrue h₁, isTrue h₂, isTrue h₃ => isTrue (h₁ ▸ h₂ ▸ h₃ ▸ rfl)
    | isFalse h₁, _, _ =>
      isFalse (fun hh => h₁ (congrArg Prod.fst (List.cons.inj hh).1))
    | _, isFalse h₂, _ =>
      isFalse (fun hh => h₂ (congrArg Prod.snd (List.cons.inj hh).1))
    | _, _, isFalse h₃ => isFalse (fun hh => h₃ (List.cons.inj hh).2)

end

instance : DecidableEq Value := decEqValue

namespace Value

/-- `Value::is_object`. -/
def is_object : Value → Bool
  | .obj _ => true
  | _ => false

/-- `Value::is_null`. -/
def is_null : Value → Bool
  | .null => true
  | _ => false

/-- `Value::as_object` (and, on the functional embedding, `as_object_mut`):
`some` exactly on objects. -/
def as_object : Value → Option (List (String × Value))
  | .obj m => some m
  | _ => none

end Value

/-- `Map::remove`: drop the entry whose key is `k`; the remaining entries
keep their relative order (ordered-mapping semantics per the spec). -/
def mapRemove (k : String) (m : List (String × Value)) : List (String × Value) :=
  m.filter (fun kv => kv.1 ≠ k)

/-- `Map::get`: the value stored at key `k`, if any. -/
def mapLookup (k : String) : List (String × Value) → Option Value
  | [] => none
  | (k₁, v₁) :: rest => if k₁ = k then some v₁ else mapLookup k rest

/-- Writing through `map.entry(k).or_insert(...)`: update the entry at `k`
in place when present, append `(k, v)` at the end otherwise. -/
def mapSet (k : String) (v : Value) : List (String × Value) → List (String × Value)
  | [] => [(k, v)]
  | (k₁, v₁) :: rest => if k₁ = k then (k₁, v) :: rest else (k₁, v₁) :: mapSet k v rest

/-- `Map::contains_key`. -/
def mapContains (k : String) (m : List (String × Value)) : Bool :=
  (mapLookup k m).isSome

/-- The keys of a map, in iteration order. -/
def keysOf (m : List (String × Value)) : List String :=
  m.map Prod.fst

mutual

/-- `json_patch` from `mmds/src/lib.rs` (RFC 7396 JSON Merge Patch) in
functional form: the Rust function mutates `target` in place, here the
patched document is returned. -/
def json_patch (target patch : Value) : Value :=
  match patch with
  | .obj pm =>
    -- `if !target.is_object() { *target = Value::Object(Map::new()); }`
    let doc := match target with
      | .obj tm => tm
      | _ => []
    .obj (patchEntries doc pm)
  | _ => patch

/-- The `for (key, value) in patch` loop of `json_patch`, over the remaining
patch entries. -/
def patchEntries (doc : List (String × Value)) : List (String × Value) → List (String × Value)
  | [] => doc
  | (k, v) :: rest =>
    if v.is_null then
      patchEntries (mapRemove k doc) rest
    else
      patchEntries (mapSet k (json_patch ((mapLookup k doc).getD Value.null) v) doc) rest

end

mutual

/-- `json_patch` with the two `unwrap` calls made explicit: `none` models a
panic of `target.as_object_mut().unwrap()` or `patch.as_object().unwrap()`.
The match on `patch` binds `pm` exactly when `patch.as_object` is `some pm`,
so the second `unwrap` is represented by that successful projection. -/
def json_patch_checked (target patch : Value) : Option Value :=
  match patch with
  | .obj pm =>
    let t := match target with
      | .obj _ => target
      | _ => Value.obj []
    match t.as_object with
    | some doc => (patchEntriesChecked doc pm).map Value.obj
    | none => none
  | _ => some patch

/-- The loop of `json_patch_checked`, propagating a hypothetical panic. -/
def patchEntriesChecked (doc : List (String × Value)) :
    List (String × Value) → Option (List (String × Value))
  | [] => some doc
  | (k, v) :: rest =>
    if v.is_null then
      patchEntriesChecked (mapRemove k doc) rest
    else
      match json_patch_checked ((mapLookup k doc).getD Value.null) v with
      | some nv => patchEntriesChecked (mapSet k nv doc) rest
      | none => none

end

/-- The error type of `data_store::Error`. -/
inductive MmdsError where
  | notFound : MmdsError
  | unsupportedValueType : MmdsError
  deriving DecidableEq, Repr

instance exceptDecEq {ε α : Type} [DecidableEq ε] [DecidableEq α] :
    DecidableEq (Except ε α)
  | .error e₁, .error e₂ =>
    match decEq e₁ e₂ with
    | isTrue h => isTrue (h ▸ rfl)
    | isFalse h => isFalse (fun hh => h (Except.error.inj hh))
  | .ok a, .ok b =>
    match decEq a b with
    | isTrue h => isTrue (h ▸ rfl)
    | isFalse h => isFalse (fun hh => h (Except.ok.inj hh))
  | .error _, .ok _ => isFalse (by intro h; cases h)
  | .ok _, .error _ => isFalse (by intro h; cases h)

/-- Modelled from the spec: the `DocumentStore` of `data_store.rs` (not
among the available sources) owns a single root `Value`, initialized to an
empty Node at store creation. -/
structure Mmds where
  data_store : Value
  deriving DecidableEq, Repr

/-- `Mmds::default()`: the store starts with an empty object document. -/
def Mmds.default : Mmds := ⟨Value.obj []⟩

mutual

/-- Modelled from the spec: the `TypeValidator` of `data_store.rs` — a Leaf
(string) is always valid; a Node (object) is valid iff every child value is
valid; any other shape is invalid. -/
def check_data_valid : Value → Bool
  | .str _ => true
  | .obj m => checkEntriesValid m
  | _ => false

/-- The child-by-child validation of a Node in `check_data_valid`. -/
def checkEntriesValid : List (String × Value) → Bool
  | [] => true
  | (_, v) :: rest => check_data_valid v && checkEntriesValid rest

end

/-- Modelled from the spec: `Mmds::put_data` (the store `replace`
operation): validate the candidate; if valid, the document becomes the
candidate; if invalid, the document is left unchanged and the call fails
with `UnsupportedValueType`. -/
def Mmds.put_data (s : Mmds) (data : Value) : Mmds × Except MmdsError Unit :=
  if check_data_valid data then (⟨data⟩, .ok ()) else (s, .error .unsupportedValueType)

mutual

/-- The predicate of the specification: the candidate contains, anywhere in
its tree, a value that is neither a Leaf (string) nor a Node (object). -/
def hasBadValue : Value → Bool
  | .str _ => false
  | .obj m => entriesHaveBadValue m
  | _ => true

/-- Child-by-child form of `hasBadValue` on a Node. -/
def entriesHaveBadValue : List (String × Value) → Bool
  | [] => false
  | (_, v) :: rest => hasBadValue v || entriesHaveBadValue rest

end

/-- Modelled from the spec: the `PathResolver` splits the request path on
slashes and discards empty segments, so leading, trailing and duplicate
slashes are tolerated. -/
def pathSegments (path : String) : List String :=
  ((path.data.splitOn (Char.ofNat 47)).map (fun cs => String.mk cs)).filter (fun s => s ≠ "")

/-- Modelled from the spec: walk the document; each segment must name a key
of the current Node, and the remaining value at the end is the result. -/
def resolveSegments : Value → List String → Option Value
  | v, [] => some v
  | .obj m, seg :: rest =>
    match mapLookup seg m with
    | some child => resolveSegments child rest
    | none => none
  | _, _ :: _ => none

/-- Modelled from the spec: `render` — a Leaf yields a single line equal to
the leaf string; a Node yields one line per child key in insertion order;
any other shape reports the inconsistent-state error. -/
def renderValue : Value → Except MmdsError (List String)
  | .str s => .ok [s]
  | .obj m => .ok (keysOf m)
  | _ => .error .unsupportedValueType

/-- Modelled from the spec: `Mmds::get_value` of `data_store.rs` resolves
the path against the current document and renders the result. -/
def Mmds.get_value (s : Mmds) (path : String) : Except MmdsError (List String) :=
  match resolveSegments s.data_store (pathSegments path) with
  | some v => renderValue v
  | none => .error .notFound

/-- Modelled from the spec: the `Display` rendering of `data_store::Error`
(the textual description carried in error response bodies). -/
def errorDisplay : MmdsError → String
  | .notFound => "Resource not found"
  | .unsupportedValueType => "Unsupported value type"

/-- An HTTP response as built by the handlers: a status code and a body. -/
structure HttpResponse where
  status : Nat
  body : String
  deriving DecidableEq, Repr

/-- The hex digits used by `serde_json` for control-character escapes. -/
def hexDigit (n : Nat) : Char :=
  if n < 10 then Char.ofNat (48 + n) else Char.ofNat (87 + n)

/-- The escape `serde_json` applies to one character of a JSON string:
quote and backslash are escaped, the common control characters use their
short escapes, other control characters use `\u00XX`. -/
def escapeJsonChar (c : Char) : String :=
  if c = Char.ofNat 34 then "\\\""
  else if c = Char.ofNat 92 then "\\\\"
  else if c = Char.ofNat 8 then "\\b"
  else if c = Char.ofNat 9 then "\\t"
  else if c = Char.ofNat 10 then "\\n"
  else if c = Char.ofNat 12 then "\\f"
  else if c = Char.ofNat 13 then "\\r"
  else if c.toNat < 32 then
    "\\u00" ++ String.mk [hexDigit (c.toNat / 16), hexDigit (c.toNat % 16)]
  else String.mk [c]

/-- `serde_json::to_string` applied to a `String` value: the JSON string
literal — a quoted, escaped rendering of the string. -/
def jsonEncodeString (s : String) : String :=
  "\"" ++ String.join (s.data.map escapeJsonChar) ++ "\""

/-- The `match result` of `handlers::get_mds` (`lib.rs` lines 93–106): a
successful lookup is answered with status 200 and the JSON-encoded join of
the rendered lines; `NotFound` with 404 and the error text;
`UnsupportedValueType` with 500 and the error text. -/
def get_mds_response (result : Except MmdsError (List String)) : HttpResponse :=
  match result with
  | .ok value => ⟨200, jsonEncodeString (String.intercalate "\n" value)⟩
  | .error MmdsError.notFound => ⟨404, errorDisplay .notFound⟩
  | .error MmdsError.unsupportedValueType => ⟨500, errorDisplay .unsupportedValueType⟩

/-- `handlers::get_mds` over the store and the request path below `/mds`
(the warp glue — prefix stripping and the global lock — is elided). -/
def get_mds (s : Mmds) (path : String) : HttpResponse :=
  get_mds_response (s.get_value path)

-- Sanity checks on concrete inputs.
example : get_mds ⟨.obj [("c0", .obj [("c1", .str "12345"), ("c2", .str "6789")])]⟩ "/c0/c1"
    = ⟨200, "\"12345\""⟩ := by decide

example : get_mds ⟨.obj [("c0", .obj [("c1", .str "12345"), ("c2", .str "6789")])]⟩ "/missing"
    = ⟨404, errorDisplay .notFound⟩ := by decide

/-! ### Basic lemmas about the map operations -/

theorem mapContains_nil (k : String) : mapContains k [] = false := rfl

theorem mapContains_cons (k k₁ : String) (v₁ : Value) (rest : List (String × Value)) :
    mapContains k ((k₁, v₁) :: rest) = if k₁ = k then true else mapContains k rest := by
  simp only [mapContains, mapLookup]
  split <;> simp

theorem mapLookup_eq_none (k : String) (m : List (String × Value))
    (h : mapContains k m = false) : mapLookup k m = none := by
  cases hm : mapLookup k m with
  | none => rfl
  | some v => simp [mapContains, hm] at h

theorem mapRemove_of_not_contains (k : String) (m : List (String × Value))
    (h : mapContains k m = false) : mapRemove k m = m := by
  induction m with
  | nil => rfl
  | cons kv rest ih =>
    obtain ⟨k₁, v₁⟩ := kv
    rw [mapContains_cons] at h
    by_cases hk : k₁ = k
    · simp [hk] at h
    · simp only [hk, if_false] at h
      have h₂ := ih h
      simp only [mapRemove] at h₂ ⊢
      rw [List.filter_cons, h₂, if_pos (by simp [hk])]

/-! ### Helper lemmas about `json_patch` -/

theorem json_patch_of_not_object (t p : Value) (h : p.is_object = false) :
    json_patch t p = p := by
  cases p <;> simp_all [json_patch, Value.is_object]

theorem json_patch_not_object_target (t : Value) (pm : List (String × Value))
    (h : t.is_object = false) :
    json_patch t (Value.obj pm) = json_patch (Value.obj []) (Value.obj pm) := by
  cases t <;> simp_all [json_patch, Value.is_object]

mutual

theorem check_eq_not_bad : ∀ v : Value, check_data_valid v = !hasBadValue v
  | .null => rfl
  | .bool _ => rfl
  | .num _ => rfl
  | .str _ => rfl
  | .arr _ => rfl
  | .obj m => by
    simp only [check_data_valid, hasBadValue]
    exact checkEntries_eq_not_bad m

theorem checkEntries_eq_not_bad :
    ∀ m : List (String × Value), checkEntriesValid m = !entriesHaveBadValue m
  | [] => rfl
  | (k, v) :: rest => by
    simp only [checkEntriesValid, entriesHaveBadValue, Bool.not_or]
    rw [check_eq_not_bad v, checkEntries_eq_not_bad rest]

end

mutual

theorem json_patch_checked_eq :
    ∀ t p : Value, json_patch_checked t p = some (json_patch t p)
  | t, .null => rfl
  | t, .bool _ => rfl
  | t, .num _ => rfl
  | t, .str _ => rfl
  | t, .arr _ => rfl
  | t, .obj pm => by
    cases t <;>
      simp only [json_patch_checked, json_patch, Value.as_object,
        patchEntriesChecked_eq _ pm] <;> rfl

theorem patchEntriesChecked_eq :
    ∀ (doc ps : List (String × Value)),
      patchEntriesChecked doc ps = some (patchEntries doc ps)
  | doc, [] => rfl
  | doc, (k, v) :: rest => by
    cases hv : v.is_null
    · simp [patchEntriesChecked, patchEntries, hv,
        json_patch_checked_eq ((mapLookup k doc).getD Value.null) v,
        patchEntriesChecked_eq (mapSet k (json_patch ((mapLookup k doc).getD Value.null) v) doc) rest]
    · simp [patchEntriesChecked, patchEntries, hv,
        patchEntriesChecked_eq (mapRemove k doc) rest]

end

theorem patchEntries_allNull (pm : List (String × Value))
    (h : ∀ kv ∈ pm, kv.2 = Value.null) :
    ∀ doc, patchEntries doc pm = doc.filter (fun kv => !mapContains kv.1 pm) := by
  induction pm with
  | nil =>
    intro doc
    simp [patchEntries, mapContains, mapLookup]
  | cons kv rest ih =>
    obtain ⟨k, v⟩ := kv
    have hv : v = Value.null := h (k, v) (List.mem_cons_self _ _)
    have hrest : ∀ kv ∈ rest, kv.2 = Value.null :=
      fun kv hkv => h kv (List.mem_cons_of_mem _ hkv)
    intro doc
    subst hv
    calc patchEntries doc ((k, Value.null) :: rest)
        = patchEntries (mapRemove k doc) rest := by
          simp [patchEntries, Value.is_null]
      _ = (mapRemove k doc).filter (fun kv => !mapContains kv.1 rest) := ih hrest _
      _ = doc.filter (fun kv => !mapContains kv.1 ((k, Value.null) :: rest)) := by
          rw [mapRemove, List.filter_filter]
          refine List.filter_congr (fun kv _ => ?_)
          rw [mapContains_cons]
          by_cases hk : k = kv.1
          · simp [hk]
          · have hk₂ : kv.1 ≠ k := fun hh => hk hh.symm
            simp [hk, hk₂]

/-! ### The claims -/

/-- C1: for every candidate document containing, anywhere in its tree, a
value that is neither a Leaf (string) nor a Node (object), the replace
operation `put_data` fails with `UnsupportedValueType` and the stored
document is left exactly as it was before the call (all-or-nothing). -/
theorem put_data_bad_value_rejected (s : Mmds) (d : Value)
    (h : hasBadValue d = true) :
    Mmds.put_data s d = (s, Except.error MmdsError.unsupportedValueType) := by
  simp [Mmds.put_data, check_eq_not_bad, h]

theorem put_data_bad_value_rejected_witness :
    hasBadValue (Value.obj [("name", Value.obj [("first", Value.str "John"),
        ("second", Value.str "Doe")]), ("age", Value.num 43)]) = true
    ∧ Mmds.put_data Mmds.default
        (Value.obj [("name", Value.obj [("first", Value.str "John"),
          ("second", Value.str "Doe")]), ("age", Value.num 43)])
      = (Mmds.default, Except.error MmdsError.unsupportedValueType) :=
  ⟨by decide, put_data_bad_value_rejected Mmds.default _ (by decide)⟩

/-- C3: merging target `{"a":{"b":"c"},"d":"e"}` with patch `{"a":{"b":"f"}}`
yields exactly `{"a":{"b":"f"},"d":"e"}`. -/
theorem json_patch_merge_example :
    json_patch (Value.obj [("a", Value.obj [("b", Value.str "c")]), ("d", Value.str "e")])
        (Value.obj [("a", Value.obj [("b", Value.str "f")])])
      = Value.obj [("a", Value.obj [("b", Value.str "f")]), ("d", Value.str "e")] := by
  rfl

/-- C4: merging target `{"a":{"b":"c"},"d":"e"}` with patch `{"a":{"b":null}}`
yields exactly `{"a":{},"d":"e"}`: key `b` is removed and `a` remains
present as an empty Node. -/
theorem json_patch_deletion_example :
    json_patch (Value.obj [("a", Value.obj [("b", Value.str "c")]), ("d", Value.str "e")])
        (Value.obj [("a", Value.obj [("b", Value.null)])])
      = Value.obj [("a", Value.obj []), ("d", Value.str "e")] := by
  rfl

/-- C5: for every target value and every patch value that is not a
Node/object (including a string Leaf and the null erasure sentinel),
`json_patch` returns the patch itself (a deep copy on the Rust side),
discarding the target entirely. -/
theorem json_patch_non_object_patch (t p : Value) (h : p.is_object = false) :
    json_patch t p = p :=
  json_patch_of_not_object t p h

theorem json_patch_non_object_patch_witness :
    (Value.str "x").is_object = false
    ∧ json_patch (Value.obj [("a", Value.str "b")]) (Value.str "x") = Value.str "x" :=
  ⟨by decide, json_patch_non_object_patch (Value.obj [("a", Value.str "b")]) (Value.str "x") (by decide)⟩

/-- C6: for every target value that is not a Node/object and every patch
that is a Node/object, `json_patch` produces the same result as merging the
patch into an empty Node: the prior target value is discarded, not merged. -/
theorem json_patch_target_coerced_to_empty (t : Value) (pm : List (String × Value))
    (h : t.is_object = false) :
    json_patch t (Value.obj pm) = json_patch (Value.obj []) (Value.obj pm) :=
  json_patch_not_object_target t pm h

theorem json_patch_target_coerced_to_empty_witness :
    (Value.str "leaf").is_object = false
    ∧ json_patch (Value.str "leaf") (Value.obj [("a", Value.str "b")])
        = json_patch (Value.obj []) (Value.obj [("a", Value.str "b")]) :=
  ⟨by decide, json_patch_target_coerced_to_empty (Value.str "leaf") [("a", Value.str "b")] (by decide)⟩

/-- C7: for every target Node and every patch Node carrying the null
deletion sentinel at a key absent from the target, the merge succeeds and
behaves as if that deletion entry were not present (deleting an absent key
is a no-op, not a failure): the rest of the patch applies unchanged, and a
patch consisting only of such a deletion leaves the target identical. -/
theorem json_patch_absent_key_deletion (tm : List (String × Value)) (k : String)
    (rest : List (String × Value)) (h : mapContains k tm = false) :
    json_patch (Value.obj tm) (Value.obj ((k, Value.null) :: rest))
        = json_patch (Value.obj tm) (Value.obj rest)
    ∧ json_patch (Value.obj tm) (Value.obj [(k, Value.null)]) = Value.obj tm := by
  have hrm := mapRemove_of_not_contains k tm h
  constructor
  · simp only [json_patch, patchEntries, Value.is_null, if_true, hrm]
  · simp only [json_patch, patchEntries, Value.is_null, if_true, hrm]

theorem json_patch_absent_key_deletion_witness :
    mapContains "b" [("a", Value.str "x")] = false
    ∧ (json_patch (Value.obj [("a", Value.str "x")])
          (Value.obj [("b", Value.null), ("c", Value.str "y")])
        = json_patch (Value.obj [("a", Value.str "x")]) (Value.obj [("c", Value.str "y")])
      ∧ json_patch (Value.obj [("a", Value.str "x")]) (Value.obj [("b", Value.null)])
        = Value.obj [("a", Value.str "x")]) :=
  ⟨by decide, json_patch_absent_key_deletion [("a", Value.str "x")] "b" [("c", Value.str "y")] (by decide)⟩

/-- C8: `json_patch` is idempotent in the full-value-replacement case (the
patch is not a Node) and in the deletion case (every top-level patch value
is the null deletion sentinel): applying such a patch twice equals applying
it once. -/
theorem json_patch_idem_special_cases :
    (∀ t p : Value, p.is_object = false →
        json_patch (json_patch t p) p = json_patch t p)
    ∧ (∀ (t : Value) (pm : List (String × Value)), (∀ kv ∈ pm, kv.2 = Value.null) →
        json_patch (json_patch t (Value.obj pm)) (Value.obj pm)
          = json_patch t (Value.obj pm)) := by
  constructor
  · intro t p hp
    rw [json_patch_of_not_object t p hp, json_patch_of_not_object p p hp]
  · intro t pm h
    have key : ∀ doc, patchEntries (patchEntries doc pm) pm = patchEntries doc pm := by
      intro doc
      rw [patchEntries_allNull pm h doc, patchEntries_allNull pm h _, List.filter_filter]
      exact List.filter_congr (fun kv _ => by simp)
    cases t <;> simp only [json_patch] <;> exact congrArg Value.obj (key _)

theorem json_patch_idem_special_cases_witness :
    ((Value.str "x").is_object = false
      ∧ json_patch (json_patch (Value.obj [("a", Value.str "b")]) (Value.str "x")) (Value.str "x")
        = json_patch (Value.obj [("a", Value.str "b")]) (Value.str "x"))
    ∧ ((∀ kv ∈ [("a", Value.null)], Prod.snd kv = Value.null)
      ∧ json_patch (json_patch (Value.obj [("a", Value.str "b"), ("c", Value.str "d")])
            (Value.obj [("a", Value.null)])) (Value.obj [("a", Value.null)])
        = json_patch (Value.obj [("a", Value.str "b"), ("c", Value.str "d")])
            (Value.obj [("a", Value.null)])) :=
  ⟨⟨by decide, json_patch_idem_special_cases.1 (Value.obj [("a", Value.str "b")]) (Value.str "x") (by decide)⟩,
   ⟨by decide, json_patch_idem_special_cases.2 (Value.obj [("a", Value.str "b"), ("c", Value.str "d")])
      [("a", Value.null)] (by decide)⟩⟩

/-- C10: `json_patch` is total — the checked variant, in which `none` marks
a panic of either `unwrap` (`target.as_object_mut().unwrap()` or
`patch.as_object().unwrap()`), always returns `some` of the value computed
by `json_patch`: both unwraps run only after target and patch are known to
be objects, so the failure branches are unreachable. -/
theorem json_patch_checked_total (t p : Value) :
    json_patch_checked t p = some (json_patch t p) :=
  json_patch_checked_eq t p

/-! ### Key order under `json_patch` (C2) -/

/-- The patch mentions key `k` with the null deletion sentinel. -/
def nullAt (m : List (String × Value)) (k : String) : Bool :=
  match mapLookup k m with
  | some Value.null => true
  | _ => false

theorem nullAt_nil (k : String) : nullAt [] k = false := rfl

theorem nullAt_cons (k k₁ : String) (v₁ : Value) (rest : List (String × Value)) :
    nullAt ((k₁, v₁) :: rest) k = if k₁ = k then v₁.is_null else nullAt rest k := by
  simp only [nullAt, mapLookup]
  by_cases h : k₁ = k
  · simp only [h, if_true]
    cases v₁ <;> rfl
  · simp only [h, if_false]

theorem nullAt_of_not_contains (k : String) (m : List (String × Value))
    (h : mapContains k m = false) : nullAt m k = false := by
  simp only [nullAt, mapLookup_eq_none k m h]

theorem keysOf_cons (k : String) (v : Value) (m : List (String × Value)) :
    keysOf ((k, v) :: m) = k :: keysOf m := rfl

theorem mapContains_eq_mem (k : String) (m : List (String × Value)) :
    mapContains k m = decide (k ∈ keysOf m) := by
  induction m with
  | nil => rfl
  | cons kv rest ih =>
    obtain ⟨k₁, v₁⟩ := kv
    rw [mapContains_cons, keysOf_cons]
    by_cases h : k₁ = k
    · simp [h]
    · have h₂ : ¬k = k₁ := fun hh => h hh.symm
      simp [h, h₂, ih]

theorem keysOf_mapRemove (k : String) (m : List (String × Value)) :
    keysOf (mapRemove k m) = (keysOf m).filter (fun j => j ≠ k) := by
  induction m with
  | nil => rfl
  | cons kv rest ih =>
    obtain ⟨k₁, v₁⟩ := kv
    simp only [mapRemove] at ih ⊢
    rw [keysOf_cons, List.filter_cons, List.filter_cons]
    by_cases h : k₁ = k
    · rw [if_neg (by simp [h]), if_neg (by simp [h])]
      exact ih
    · rw [if_pos (by simp [h]), if_pos (by simp [h]), keysOf_cons, ih]

theorem keysOf_mapSet (k : String) (v : Value) (m : List (String × Value)) :
    keysOf (mapSet k v m)
      = if mapContains k m then keysOf m else keysOf m ++ [k] := by
  induction m with
  | nil => rfl
  | cons kv rest ih =>
    obtain ⟨k₁, v₁⟩ := kv
    rw [mapContains_cons]
    by_cases h : k₁ = k
    · simp [mapSet, h, keysOf_cons]
    · simp only [mapSet, h, if_false, keysOf_cons, ih]
      by_cases hc : mapContains k rest <;> simp [hc]

theorem mapContains_mapRemove (j k : String) (m : List (String × Value))
    (h : j ≠ k) : mapContains j (mapRemove k m) = mapContains j m := by
  rw [mapContains_eq_mem, mapContains_eq_mem, keysOf_mapRemove]
  simp [List.mem_filter, h]

theorem mapContains_mapSet (j k : String) (v : Value) (m : List (String × Value))
    (h : j ≠ k) : mapContains j (mapSet k v m) = mapContains j m := by
  rw [mapContains_eq_mem, mapContains_eq_mem, keysOf_mapSet]
  by_cases hc : mapContains k m <;> simp [hc, h]

theorem mapContains_of_mem (kv : String × Value) (m : List (String × Value))
    (h : kv ∈ m) : mapContains kv.1 m = true := by
  rw [mapContains_eq_mem, decide_eq_true_eq]
  exact List.mem_map_of_mem Prod.fst h

theorem keysOf_patchEntries (ps : List (String × Value)) (hps : (keysOf ps).Nodup) :
    ∀ doc, keysOf (patchEntries doc ps)
      = (keysOf doc).filter (fun j => !nullAt ps j)
        ++ keysOf (ps.filter (fun kv => !kv.2.is_null && !mapContains kv.1 doc)) := by
  induction ps with
  | nil =>
    intro doc
    simp [patchEntries, nullAt, mapLookup, keysOf]
  | cons kv rest ih =>
    obtain ⟨k, v⟩ := kv
    rw [keysOf_cons, List.nodup_cons] at hps
    obtain ⟨hk, hnd⟩ := hps
    have hcont_rest : mapContains k rest = false := by
      rw [mapContains_eq_mem]
      simpa using hk
    have hnull_rest : nullAt rest k = false := nullAt_of_not_contains k rest hcont_rest
    intro doc
    by_cases hv : v.is_null
    · -- deletion entry
      have lhs : patchEntries doc ((k, v) :: rest) = patchEntries (mapRemove k doc) rest := by
        simp [patchEntries, hv]
      rw [lhs, ih hnd (mapRemove k doc), keysOf_mapRemove, List.filter_filter]
      congr 1
      · refine List.filter_congr (fun j _ => ?_)
        rw [nullAt_cons]
        by_cases hj : k = j
        · simp [hj, hv]
        · have hj₂ : j ≠ k := fun hh => hj hh.symm
          simp [hj, hj₂]
      · rw [List.filter_cons]
        simp only [hv, Bool.not_true, Bool.false_and, if_false]
        congr 1
        refine List.filter_congr (fun kv hkv => ?_)
        have hne : kv.1 ≠ k := by
          intro hh
          exact hk (hh ▸ List.mem_map_of_mem Prod.fst hkv)
        rw [mapContains_mapRemove kv.1 k doc hne]
    · -- replacement entry
      have lhs : patchEntries doc ((k, v) :: rest)
          = patchEntries (mapSet k (json_patch ((mapLookup k doc).getD Value.null) v) doc) rest := by
        simp [patchEntries, hv]
      rw [lhs, ih hnd _, keysOf_mapSet]
      have hcongr_rest : ∀ kv ∈ rest,
          mapContains kv.1 (mapSet k (json_patch ((mapLookup k doc).getD Value.null) v) doc)
            = mapContains kv.1 doc := by
        intro kv hkv
        have hne : kv.1 ≠ k := by
          intro hh
          exact hk (hh ▸ List.mem_map_of_mem Prod.fst hkv)
        exact mapContains_mapSet kv.1 k _ doc hne
      have hfilter_eq : (keysOf doc).filter (fun j => !nullAt rest j)
          = (keysOf doc).filter (fun j => !nullAt ((k, v) :: rest) j) := by
        refine List.filter_congr (fun j _ => ?_)
        rw [nullAt_cons]
        by_cases hj : k = j
        · subst hj
          simp [hv, hnull_rest]
        · simp [hj]
      have hrest_filter :
          rest.filter (fun kv => !kv.2.is_null
              && !mapContains kv.1 (mapSet k (json_patch ((mapLookup k doc).getD Value.null) v) doc))
            = rest.filter (fun kv => !kv.2.is_null && !mapContains kv.1 doc) :=
        List.filter_congr (fun kv hkv => by rw [hcongr_rest kv hkv])
      have hv₂ : v.is_null = false := by simpa using hv
      by_cases hc : mapContains k doc
      · rw [if_pos hc, hfilter_eq]
        congr 1
        rw [hrest_filter, List.filter_cons]
        simp [hc]
      · rw [if_neg hc, List.filter_append, hfilter_eq, hrest_filter]
        have hsing : (List.filter (fun j => !nullAt rest j) [k]) = [k] := by
          simp [List.filter_cons, hnull_rest]
        rw [hsing, List.filter_cons]
        rw [if_pos (by simp [hv₂, hc])]
        rw [keysOf_cons, List.append_assoc, List.singleton_append]

/-- C2: for every target Node and patch Node (with the unique keys a
`serde_json::Map` guarantees), the merged object's keys decompose as: the
target's keys that survive the patch, in their original relative order,
followed by the keys newly added by the patch, in the patch's own iteration
order; in particular the target keys not mentioned in the patch keep their
original relative order and no added key precedes them. -/
theorem json_patch_key_order (tm pm rm : List (String × Value))
    (hpm : (keysOf pm).Nodup)
    (hr : json_patch (Value.obj tm) (Value.obj pm) = Value.obj rm) :
    keysOf rm
      = (keysOf tm).filter (fun j => !nullAt pm j)
        ++ keysOf (pm.filter (fun kv => !kv.2.is_null && !mapContains kv.1 tm))
    ∧ (keysOf rm).filter (fun j => !mapContains j pm)
      = (keysOf tm).filter (fun j => !mapContains j pm) := by
  have hrm : rm = patchEntries tm pm := by
    simp only [json_patch] at hr
    exact (Value.obj.inj hr).symm
  subst hrm
  have hmain := keysOf_patchEntries pm hpm tm
  refine ⟨hmain, ?_⟩
  rw [hmain, List.filter_append]
  have hnil : (keysOf (pm.filter (fun kv => !kv.2.is_null && !mapContains kv.1 tm))).filter
      (fun j => !mapContains j pm) = [] := by
    rw [List.filter_eq_nil_iff]
    intro j hj
    simp only [keysOf, List.mem_map] at hj
    obtain ⟨kv, hkv, rfl⟩ := hj
    have hmem := mapContains_of_mem kv pm (List.mem_of_mem_filter hkv)
    simp [hmem]
  rw [hnil, List.append_nil, List.filter_filter]
  refine List.filter_congr (fun j _ => ?_)
  by_cases hcj : mapContains j pm = true
  · simp [hcj]
  · have hcj₂ : mapContains j pm = false := by simpa using hcj
    simp [hcj₂, nullAt_of_not_contains j pm hcj₂]

theorem json_patch_key_order_witness :
    (keysOf [("b", Value.null), ("d", Value.str "4"), ("a", Value.str "5")]).Nodup
    ∧ json_patch (Value.obj [("a", Value.str "1"), ("b", Value.str "2"), ("c", Value.str "3")])
          (Value.obj [("b", Value.null), ("d", Value.str "4"), ("a", Value.str "5")])
        = Value.obj [("a", Value.str "5"), ("c", Value.str "3"), ("d", Value.str "4")]
    ∧ (keysOf [("a", Value.str "5"), ("c", Value.str "3"), ("d", Value.str "4")]
        = (keysOf [("a", Value.str "1"), ("b", Value.str "2"), ("c", Value.str "3")]).filter
            (fun j => !nullAt [("b", Value.null), ("d", Value.str "4"), ("a", Value.str "5")] j)
          ++ keysOf ([("b", Value.null), ("d", Value.str "4"), ("a", Value.str "5")].filter
              (fun kv => !kv.2.is_null
                && !mapContains kv.1 [("a", Value.str "1"), ("b", Value.str "2"), ("c", Value.str "3")]))
      ∧ (keysOf [("a", Value.str "5"), ("c", Value.str "3"), ("d", Value.str "4")]).filter
            (fun j => !mapContains j [("b", Value.null), ("d", Value.str "4"), ("a", Value.str "5")])
        = (keysOf [("a", Value.str "1"), ("b", Value.str "2"), ("c", Value.str "3")]).filter
            (fun j => !mapContains j [("b", Value.null), ("d", Value.str "4"), ("a", Value.str "5")])) :=
  ⟨by decide, by rfl,
    json_patch_key_order [("a", Value.str "1"), ("b", Value.str "2"), ("c", Value.str "3")]
      [("b", Value.null), ("d", Value.str "4"), ("a", Value.str "5")]
      [("a", Value.str "5"), ("c", Value.str "3"), ("d", Value.str "4")] (by decide) (by rfl)⟩

/-- C9, counterexample: on a successful resolution the handler body is the
JSON string literal produced by `serde_json::to_string`, not the bare
joined line sequence: for the document `{"c0":"67890"}` and path `/c0` the
rendered lines are `["67890"]`, their join is `67890`, yet the response
body carries the quoted form (as the repository test `put_patch_get_ok`
also asserts). -/
theorem get_mds_body_quoted :
    get_mds ⟨Value.obj [("c0", Value.str "67890")]⟩ "/c0" = ⟨200, "\"67890\""⟩
    ∧ ¬((get_mds ⟨Value.obj [("c0", Value.str "67890")]⟩ "/c0").body
        = String.intercalate "\n" ["67890"]) := by
  decide

/-- C9 (amended): for every store and request path, the GET handler maps a
successful resolution to a 200 response whose body is the JSON string
encoding of the rendered line sequence joined by the newline separator; a
`NotFound` error to a 404 response carrying the error's textual
description; an `UnsupportedValueType` error to a 500 response carrying the
error's textual description. -/
theorem get_mds_status_mapping (s : Mmds) (path : String) :
    (∀ lines, s.get_value path = Except.ok lines →
        get_mds s path = ⟨200, jsonEncodeString (String.intercalate "\n" lines)⟩)
    ∧ (s.get_value path = Except.error MmdsError.notFound →
        get_mds s path = ⟨404, errorDisplay MmdsError.notFound⟩)
    ∧ (s.get_value path = Except.error MmdsError.unsupportedValueType →
        get_mds s path = ⟨500, errorDisplay MmdsError.unsupportedValueType⟩) := by
  refine ⟨fun lines h => ?_, fun h => ?_, fun h => ?_⟩ <;>
    simp [get_mds, h, get_mds_response]

theorem get_mds_status_mapping_witness :
    ((⟨Value.obj [("c0", Value.str "67890")]⟩ : Mmds).get_value "/c0" = Except.ok ["67890"]
      ∧ get_mds ⟨Value.obj [("c0", Value.str "67890")]⟩ "/c0"
          = ⟨200, jsonEncodeString (String.intercalate "\n" ["67890"])⟩)
    ∧ ((⟨Value.obj []⟩ : Mmds).get_value "/missing" = Except.error MmdsError.notFound
      ∧ get_mds ⟨Value.obj []⟩ "/missing" = ⟨404, errorDisplay MmdsError.notFound⟩)
    ∧ ((⟨Value.obj [("x", Value.num 1)]⟩ : Mmds).get_value "/x"
          = Except.error MmdsError.unsupportedValueType
      ∧ get_mds ⟨Value.obj [("x", Value.num 1)]⟩ "/x"
          = ⟨500, errorDisplay MmdsError.unsupportedValueType⟩) :=
  ⟨⟨by decide, (get_mds_status_mapping ⟨Value.obj [("c0", Value.str "67890")]⟩ "/c0").1
      ["67890"] (by decide)⟩,
   ⟨by decide, (get_mds_status_mapping ⟨Value.obj []⟩ "/missing").2.1 (by decide)⟩,
   ⟨by decide, (get_mds_status_mapping ⟨Value.obj [("x", Value.num 1)]⟩ "/x").2.2 (by decide)⟩⟩
